import Mathlib

/-!
Shallow embedding of the image batch-processing pipeline (`src/app.js`).

Modelling conventions:
* JavaScript numbers that are always non-negative integers in the program
  (pixel dimensions, byte sizes) are `Nat`; encoder quality values are `ℚ`.
* `canvas.toBlob(cb, format, quality?)` is an opaque external capability,
  modelled as a function argument `enc : Canvas → String → Option ℚ → Blob`
  (the `Option ℚ` is the optional quality argument; the PNG branch passes
  none).  `await`/promises disappear: each call is a plain application.
* Fallible async steps (image loading in `process`) are `Except String`.
* JavaScript `x || d` on strings/numbers is falsy-aware: `""` and `0`
  fall back to the default, as do absent fields (`none`).
-/

/-! ## Data model -/

/-- An encoded blob; only its byte size is observable to the algorithms. -/
structure Blob where
  size : Nat
deriving DecidableEq

/-- A `<canvas>` raster surface (the drawn pixels are opaque to the core). -/
structure Canvas where
  width : Nat
  height : Nat
deriving DecidableEq

/-- A decoded image element: intrinsic raster dimensions. -/
structure Img where
  naturalWidth : Nat
  naturalHeight : Nat
deriving DecidableEq

/-- A `File`: name, declared MIME type, byte size. -/
structure JsFile where
  name : String
  type : String
  size : Nat
deriving DecidableEq

/-- The image-info record produced by `ImageAnalyzer.analyze`. -/
structure ImageInfo where
  file : JsFile
  width : Nat
  height : Nat
  size : Nat
  needsProcessing : Bool
deriving DecidableEq

/-- The bytes stored in a `ProcessingResult`: either the untouched original
`File` (skip-fast path) or a freshly encoded blob. In the browser both are
`Blob`s; the inductive keeps track of which one the program returned. -/
inductive JsBlob where
  | file (f : JsFile)
  | encoded (b : Blob)
deriving DecidableEq

def JsBlob.size : JsBlob → Nat
  | .file f => f.size
  | .encoded b => b.size

/-- The per-item result object built by `ImageProcessor.process` /
`BatchProcessor.processAll`; fields absent on a given code path are `none`. -/
structure ProcResult where
  originalFile : JsFile
  processedBlob : Option JsBlob
  finalWidth : Option Nat
  finalHeight : Option Nat
  finalSize : Option Nat
  wasProcessed : Bool
  outputFileName : Option String
  error : Option String
deriving DecidableEq

/-- Per-run user configuration `{ format, maxSizeKB, extension }`;
absent fields are `none`. -/
structure UserConfig where
  format : Option String := none
  maxSizeKB : Option Nat := none
  extension : Option String := none
deriving DecidableEq

/-- Progress record emitted to the `onProgress` callback; `results` is the
snapshot of the accumulated results array at emission time. -/
structure Progress where
  total : Nat
  completed : Nat
  current : String
  results : List ProcResult
deriving DecidableEq

/-- The external encoder capability (`canvas.toBlob`). -/
abbrev Enc := Canvas → String → Option ℚ → Blob

/-! ## JavaScript primitives -/

/-- JS `v || d` for strings: absent or empty falls back to the default. -/
def jsOrString (v : Option String) (d : String) : String :=
  match v with
  | some s => if s = "" then d else s
  | none => d

/-- JS `v || d` for numbers: absent or zero falls back to the default. -/
def jsOrNat (v : Option Nat) (d : Nat) : Nat :=
  match v with
  | some n => if n = 0 then d else n
  | none => d

/-- JS `Math.round` (round half towards positive infinity). -/
def jsRound (x : ℚ) : Int := Int.floor (x + 1 / 2)

/-- Index of the last occurrence of `target` in the character list, if any. -/
def jsLastIndexOfAux (target : Char) : List Char → Option Nat
  | [] => none
  | c :: rest =>
      match jsLastIndexOfAux target rest with
      | some j => some (j + 1)
      | none => if c = target then some 0 else none

/-- JS `s.lastIndexOf(target)`: last index of `target`, `-1` if absent. -/
def jsLastIndexOf (s : String) (target : Char) : Int :=
  match jsLastIndexOfAux target s.data with
  | some j => (j : Int)
  | none => -1

/-- JS `s.substring(0, endIdx)`: a negative end clamps to `0`. -/
def jsSubstringTo (s : String) (endIdx : Int) : String :=
  String.mk (s.data.take endIdx.toNat)

/-! ## CONFIG constants (`src/app.js` lines 12–21) -/

def CONFIG_maxWidth : Nat := 750

def CONFIG_maxHeight : Nat := 750

def CONFIG_maxSizeKB : Nat := 800

def CONFIG_maxSizeBytes : Nat := 800 * 1024

def CONFIG_supportedTypes : List String :=
  ["image/png", "image/jpeg", "image/webp", "image/avif"]

def CONFIG_outputFormat : String := "image/jpeg"

def CONFIG_outputExtension : String := ".jpg"

/-! ## ImageAnalyzer -/

namespace ImageAnalyzer

/-- `ImageAnalyzer.needsProcessing` (`src/app.js` lines 85–89): width differs
from the target, or the file size exceeds the byte budget. -/
def needsProcessing (info : ImageInfo) : Bool :=
  info.width != CONFIG_maxWidth || decide (CONFIG_maxSizeBytes < info.size)

end ImageAnalyzer

/-! ## ImageProcessor -/

namespace ImageProcessor

/-- `ImageProcessor.resize` (`src/app.js` lines 159–178): width fixed to
`targetWidth`, height scaled proportionally and rounded; the `maxHeight`
parameter is unused in the source. -/
def resize (image : Img) (targetWidth : Nat) (_maxHeight : Nat) : Canvas :=
  let width := image.naturalWidth
  let height := image.naturalHeight
  let ratio : ℚ := (targetWidth : ℚ) / (width : ℚ)
  let newWidth := targetWidth
  let newHeight := (jsRound ((height : ℚ) * ratio)).toNat
  { width := newWidth, height := newHeight }

/-- The `for (let i = 0; i < 10; i++)` binary-search loop of
`ImageProcessor.compress` (`src/app.js` lines 212–224), with state
`(minQuality, maxQuality, bestBlob)` and the remaining round count. -/
def compressLoop (enc : Enc) (canvas : Canvas) (format : String)
    (maxSizeBytes : Nat) : Nat → ℚ × ℚ × Option Blob → ℚ × ℚ × Option Blob
  | 0, st => st
  | n + 1, (minQuality, maxQuality, bestBlob) =>
      let midQuality := (minQuality + maxQuality) / 2
      let blob := enc canvas format (some midQuality)
      if blob.size ≤ maxSizeBytes then
        compressLoop enc canvas format maxSizeBytes n (midQuality, maxQuality, some blob)
      else
        compressLoop enc canvas format maxSizeBytes n (minQuality, midQuality, bestBlob)

/-- `ImageProcessor.compress` (`src/app.js` lines 187–234). -/
def compress (enc : Enc) (canvas : Canvas) (maxSizeKB : Nat) (format : String) : Blob :=
  let maxSizeBytes := maxSizeKB * 1024
  if format = "image/png" then
    enc canvas format none
  else
    let firstBlob := enc canvas format (some 1)
    if firstBlob.size ≤ maxSizeBytes then
      firstBlob
    else
      let final := compressLoop enc canvas format maxSizeBytes 10 (1 / 10, 1, some firstBlob)
      match final.2.2 with
      | none => enc canvas format (some final.1)
      | some b =>
          if maxSizeBytes < b.size then enc canvas format (some final.1) else b

/-- `ImageProcessor.process` (`src/app.js` lines 100–150).  The image-element
load from `previewUrl` (which may fail) is passed in as `load`. -/
def process (enc : Enc) (load : Except String Img) (imageInfo : ImageInfo)
    (userConfig : UserConfig) : Except String ProcResult :=
  let outputFormat := jsOrString userConfig.format CONFIG_outputFormat
  let maxSizeKB := jsOrNat userConfig.maxSizeKB CONFIG_maxSizeKB
  let outputExtension := jsOrString userConfig.extension CONFIG_outputExtension
  let needsFormatConversion : Bool := imageInfo.file.type != outputFormat
  let needsSizeCompression : Bool := decide (maxSizeKB * 1024 < imageInfo.size)
  if !imageInfo.needsProcessing && !needsFormatConversion && !needsSizeCompression then
    .ok { originalFile := imageInfo.file
          processedBlob := some (.file imageInfo.file)
          finalWidth := some imageInfo.width
          finalHeight := some imageInfo.height
          finalSize := some imageInfo.size
          wasProcessed := false
          outputFileName := some imageInfo.file.name
          error := none }
  else
    match load with
    | .error e => .error e
    | .ok img =>
        let canvas := resize img CONFIG_maxWidth CONFIG_maxHeight
        let blob := compress enc canvas maxSizeKB outputFormat
        let originalName := imageInfo.file.name
        let trimmed := jsSubstringTo originalName (jsLastIndexOf originalName '.')
        let baseName := if trimmed = "" then originalName else trimmed
        let outputFileName := baseName ++ outputExtension
        .ok { originalFile := imageInfo.file
              processedBlob := some (.encoded blob)
              finalWidth := some canvas.width
              finalHeight := some canvas.height
              finalSize := some blob.size
              wasProcessed := true
              outputFileName := some outputFileName
              error := none }

end ImageProcessor

/-! ## BatchProcessor -/

/-- The failure-sentinel result pushed by the `catch` branch of
`BatchProcessor.processAll` (`src/app.js` lines 264–269). -/
def errorSentinel (imageInfo : ImageInfo) (e : String) : ProcResult :=
  { originalFile := imageInfo.file
    processedBlob := none
    finalWidth := none
    finalHeight := none
    finalSize := none
    wasProcessed := false
    outputFileName := none
    error := some e }

/-- The `try`/`catch` around one item: the successful result, or the sentinel. -/
def itemOutcome (procItem : ImageInfo → Except String ProcResult)
    (imageInfo : ImageInfo) : ProcResult :=
  match procItem imageInfo with
  | .ok r => r
  | .error e => errorSentinel imageInfo e

namespace BatchProcessor

/-- The loop body of `BatchProcessor.processAll` (`src/app.js` lines 250–278):
returns the final results array and the list of progress emissions, given the
current index and accumulated results. -/
def processAllGo (procItem : ImageInfo → Except String ProcResult) (total : Nat) :
    List ImageInfo → Nat → List ProcResult → List ProcResult × List Progress
  | [], _, results => (results, [])
  | imageInfo :: restImages, i, results =>
      let progBefore : Progress :=
        { total := total, completed := i, current := imageInfo.file.name, results := results }
      let results2 := results ++ [itemOutcome procItem imageInfo]
      let progAfter : Progress :=
        { total := total, completed := i + 1, current := imageInfo.file.name, results := results2 }
      let tail := processAllGo procItem total restImages (i + 1) results2
      (tail.1, progBefore :: progAfter :: tail.2)

/-- `BatchProcessor.processAll` (`src/app.js` lines 246–281), abstracted over
the per-item processor; returns `(results, progress emissions)`. -/
def processAllWith (procItem : ImageInfo → Except String ProcResult)
    (images : List ImageInfo) : List ProcResult × List Progress :=
  processAllGo procItem images.length images 0 []

/-- `BatchProcessor.processAll` with the per-item processor instantiated to
`ImageProcessor.process`, as in the source; `load` supplies each item's
image-element load outcome. -/
def processAll (enc : Enc) (load : ImageInfo → Except String Img)
    (images : List ImageInfo) (userConfig : UserConfig) :
    List ProcResult × List Progress :=
  processAllWith (fun info => ImageProcessor.process enc (load info) info userConfig) images

end BatchProcessor

/-! ## ZipExporter -/

/-- One folder of the produced archive: the ordered list of `(name, content)`
entries contributed through `folder.file(...)`. -/
structure ZipFolder where
  name : String
  files : List (String × JsBlob)
deriving DecidableEq

/-- The entry name chosen for a result:
`result.outputFileName || result.originalFile.name`. -/
def zipEntryName (result : ProcResult) : String :=
  jsOrString result.outputFileName result.originalFile.name

namespace ZipExporter

/-- The entry-adding loop shared by `createZip` and `createZipWithFolders`
(`src/app.js` lines 296–302 and 318–323). -/
def zipAddFiles : List ProcResult → List (String × JsBlob)
  | [] => []
  | result :: rest =>
      match result.processedBlob with
      | some blob => (zipEntryName result, blob) :: zipAddFiles rest
      | none => zipAddFiles rest

/-- `ZipExporter.createZip` (`src/app.js` lines 292–305); the archive
generation service is opaque, so the folder content is the observable. -/
def createZip (results : List ProcResult) (folderName : String) : ZipFolder :=
  { name := folderName, files := zipAddFiles results }

/-- `ZipExporter.createZipWithFolders` (`src/app.js` lines 312–327); the `Map`
iterates in insertion order, modelled as an association list. -/
def createZipWithFolders (resultsByFolder : List (String × List ProcResult)) :
    List ZipFolder :=
  resultsByFolder.map (fun entry => { name := entry.1, files := zipAddFiles entry.2 })

end ZipExporter

/-! ## Concrete fixtures used by witnesses and counterexamples -/

/-- A constant encoder: every encode yields a 100-byte blob (trivially
monotone in quality). -/
def constEnc : Enc := fun _ _ _ => ⟨100⟩

/-- An encoder affine in quality on a fixed canvas: quality `q` encodes to
`floor (max 0 q * 1000000)` bytes, default (no quality) to `1000000`. -/
def linEnc : Enc := fun _ _ q =>
  match q with
  | some x => ⟨(Int.floor (max 0 x * 1000000)).toNat⟩
  | none => ⟨1000000⟩

/-- A sample already-conforming file/info pair (fits every constraint). -/
def fitFile : JsFile := { name := "a.jpg", type := "image/jpeg", size := 100 }

def fitInfo : ImageInfo :=
  { file := fitFile, width := 750, height := 10, size := 100, needsProcessing := false }

/-- A sample oversized image that needs processing. -/
def bigFile : JsFile := { name := "photo.png", type := "image/png", size := 2000000 }

def bigInfo : ImageInfo :=
  { file := bigFile, width := 1500, height := 1000, size := 2000000, needsProcessing := true }

/-- A file whose only `'.'` is its leading character. -/
def dotFile : JsFile := { name := ".png", type := "image/png", size := 2000000 }

def dotInfo : ImageInfo :=
  { file := dotFile, width := 1500, height := 1000, size := 2000000, needsProcessing := true }

/-- A successful processing result (for archive-exporter instances). -/
def okResult : ProcResult :=
  { originalFile := bigFile, processedBlob := some (.encoded ⟨100⟩),
    finalWidth := some 750, finalHeight := some 500, finalSize := some 100,
    wasProcessed := true, outputFileName := some "photo.jpg", error := none }

/-- A failure-sentinel processing result (null bytes). -/
def nullResult : ProcResult :=
  { originalFile := bigFile, processedBlob := none, finalWidth := none,
    finalHeight := none, finalSize := none, wasProcessed := false,
    outputFileName := none, error := some "decode failed" }

/-! ## Spec-side description of the compression search (for refinement) -/

/-- The binary-search state named by the spec: `minQuality`, `maxQuality`,
`bestBlob` (initially null). -/
structure SearchState where
  minQuality : ℚ
  maxQuality : ℚ
  bestBlob : Option Blob

/-- Modelled from the spec's words (§4.4 step 2b): one search round —
`mid = (minQuality + maxQuality) / 2`; encode at `mid`; if the result fits the
budget record it as `bestBlob` and raise `minQuality = mid`, else lower
`maxQuality = mid`. -/
def specRound (enc : Enc) (canvas : Canvas) (format : String) (maxSizeBytes : Nat)
    (st : SearchState) : SearchState :=
  let mid := (st.minQuality + st.maxQuality) / 2
  let blob := enc canvas format (some mid)
  if blob.size ≤ maxSizeBytes then
    { minQuality := mid, maxQuality := st.maxQuality, bestBlob := some blob }
  else
    { minQuality := st.minQuality, maxQuality := mid, bestBlob := st.bestBlob }

/-- Iterate `specRound` for the given number of rounds. -/
def specSearch (enc : Enc) (canvas : Canvas) (format : String) (maxSizeBytes : Nat) :
    Nat → SearchState → SearchState
  | 0, st => st
  | n + 1, st => specSearch enc canvas format maxSizeBytes n
      (specRound enc canvas format maxSizeBytes st)

/-- Modelled from the spec's words (§4.4): `compress` as the spec describes
it — lossless format encodes once at default settings; otherwise encode at
quality 1.0 and return if it fits; else start from
`minQuality = 0.1, maxQuality = 1.0, bestBlob = null`, run exactly 10 rounds,
and if no round satisfied the budget or the best still exceeds it, one final
encode at `minQuality`, returned unconditionally. -/
def compressSpec (enc : Enc) (canvas : Canvas) (maxSizeKB : Nat) (format : String) : Blob :=
  let maxSizeBytes := maxSizeKB * 1024
  if format = "image/png" then
    enc canvas format none
  else
    let firstBlob := enc canvas format (some 1)
    if firstBlob.size ≤ maxSizeBytes then
      firstBlob
    else
      let final := specSearch enc canvas format maxSizeBytes 10
        { minQuality := 1 / 10, maxQuality := 1, bestBlob := none }
      match final.bestBlob with
      | some b => if b.size ≤ maxSizeBytes then b else enc canvas format (some final.minQuality)
      | none => enc canvas format (some final.minQuality)

/-- A best-blob slot "fits" when it holds a blob within the byte budget. -/
def OptFits (maxSizeBytes : Nat) : Option Blob → Prop
  | none => False
  | some b => b.size ≤ maxSizeBytes

/-- The expected sequence of `completed` values emitted for `n` remaining
items when the next item has index `i`: `i, i+1, i+1, i+2, …, i+n`. -/
def completedSeq : Nat → Nat → List Nat
  | 0, _ => []
  | n + 1, i => i :: (i + 1) :: completedSeq n (i + 1)

/-- Spec-side helper: does the string contain a `'.'`? -/
def hasDot (s : String) : Bool := s.data.contains '.'

/-- Spec-side comparator, written from the claim's words: everything strictly
before the last `'.'` of the character list (empty when there is no `'.'`). -/
def beforeLastDotL : List Char → List Char
  | [] => []
  | c :: rest => if rest.contains '.' then c :: beforeLastDotL rest else []

/-- Spec-side comparator: everything before the last `'.'` of the string. -/
def beforeLastDot (s : String) : String := String.mk (beforeLastDotL s.data)

/-! ## C5 — needsProcessing predicate -/

/-- C5: `needsProcessing {width := w, size := s}` is true iff `w ≠ 750` or
`s > 800*1024`; a width mismatch in either direction makes it true, and
width exactly 750 with size exactly 800*1024 makes it false. -/
theorem needsProcessing_iff (info : ImageInfo) :
    (ImageAnalyzer.needsProcessing info = true ↔
      (info.width ≠ 750 ∨ 800 * 1024 < info.size)) ∧
    ImageAnalyzer.needsProcessing
      { file := fitFile, width := 100, height := 1, size := 0, needsProcessing := false } = true ∧
    ImageAnalyzer.needsProcessing
      { file := fitFile, width := 2000, height := 1, size := 0, needsProcessing := false } = true ∧
    ImageAnalyzer.needsProcessing
      { file := fitFile, width := 750, height := 1, size := 800 * 1024,
        needsProcessing := false } = false := by
  refine ⟨?_, by decide, by decide, by decide⟩
  simp [ImageAnalyzer.needsProcessing, CONFIG_maxWidth, CONFIG_maxSizeBytes]

/-! ## C8 — PNG branch of compress -/

/-- C8: for the lossless format `image/png`, `compress` performs a single
default-settings encode (no quality argument) and returns it immediately; the
result does not depend on the `maxSizeKB` budget (and no quality search runs,
so no quality value influences it). -/
theorem compress_png_single_encode (enc : Enc) (canvas : Canvas) (k k' : Nat) :
    ImageProcessor.compress enc canvas k "image/png" = enc canvas "image/png" none ∧
    ImageProcessor.compress enc canvas k "image/png" =
      ImageProcessor.compress enc canvas k' "image/png" := by
  constructor <;> simp [ImageProcessor.compress]

/-! ## C6 — resize geometry -/

/-- C6: for intrinsic width `w > 0` and height `h`, `resize` produces a canvas
of width exactly 750 and height `round (h * 750 / w)`, with no maximum-height
clamp (a 750×1500 image keeps height 1500 > 750); a 1500×1000 image yields
exactly 750×500. -/
theorem resize_width_height (w h : Nat) (_hw : 0 < w) :
    (ImageProcessor.resize ⟨w, h⟩ CONFIG_maxWidth CONFIG_maxHeight).width = 750 ∧
    (ImageProcessor.resize ⟨w, h⟩ CONFIG_maxWidth CONFIG_maxHeight).height =
      (jsRound ((h : ℚ) * 750 / (w : ℚ))).toNat ∧
    ImageProcessor.resize ⟨1500, 1000⟩ CONFIG_maxWidth CONFIG_maxHeight =
      { width := 750, height := 500 } ∧
    CONFIG_maxHeight <
      (ImageProcessor.resize ⟨750, 1500⟩ CONFIG_maxWidth CONFIG_maxHeight).height := by
  refine ⟨rfl, ?_, ?_, ?_⟩
  · simp only [ImageProcessor.resize, CONFIG_maxWidth]
    rw [mul_div_assoc]
    norm_num
  · simp only [ImageProcessor.resize, jsRound, CONFIG_maxWidth, CONFIG_maxHeight,
      Canvas.mk.injEq]
    norm_num
    rfl
  · simp only [ImageProcessor.resize, jsRound, CONFIG_maxWidth, CONFIG_maxHeight]
    norm_num

/-- Witness for C6 at `w = 1500`, `h = 1000`. -/
theorem resize_width_height_witness :
    0 < 1500 ∧
    ((ImageProcessor.resize ⟨1500, 1000⟩ CONFIG_maxWidth CONFIG_maxHeight).width = 750 ∧
    (ImageProcessor.resize ⟨1500, 1000⟩ CONFIG_maxWidth CONFIG_maxHeight).height =
      (jsRound ((1000 : ℚ) * 750 / (1500 : ℚ))).toNat ∧
    ImageProcessor.resize ⟨1500, 1000⟩ CONFIG_maxWidth CONFIG_maxHeight =
      { width := 750, height := 500 } ∧
    CONFIG_maxHeight <
      (ImageProcessor.resize ⟨750, 1500⟩ CONFIG_maxWidth CONFIG_maxHeight).height) :=
  ⟨by decide, resize_width_height 1500 1000 (by decide)⟩

/-! ## C7 — skip-fast path of process -/

/-- C7: when the analyzer's `needsProcessing` flag is false, the declared type
equals the effective output format, and the byte size is within the effective
budget, `process` bypasses decode/resize/compress (any `load` outcome, even a
failing one, is ignored) and returns the original file with
`wasProcessed = false` and the original dimensions, size and name. -/
theorem process_skip_fast_path (enc : Enc) (load : Except String Img)
    (imageInfo : ImageInfo) (userConfig : UserConfig)
    (h1 : imageInfo.needsProcessing = false)
    (h2 : imageInfo.file.type = jsOrString userConfig.format CONFIG_outputFormat)
    (h3 : imageInfo.size ≤ jsOrNat userConfig.maxSizeKB CONFIG_maxSizeKB * 1024) :
    ImageProcessor.process enc load imageInfo userConfig = .ok
      { originalFile := imageInfo.file
        processedBlob := some (.file imageInfo.file)
        finalWidth := some imageInfo.width
        finalHeight := some imageInfo.height
        finalSize := some imageInfo.size
        wasProcessed := false
        outputFileName := some imageInfo.file.name
        error := none } := by
  unfold ImageProcessor.process
  simp [h1, h2, Nat.not_lt.mpr h3]

/-- Witness for C7: a 750-wide, 100-byte `image/jpeg` file under the default
configuration is returned untouched. -/
theorem process_skip_fast_path_witness :
    fitInfo.needsProcessing = false ∧
    fitInfo.file.type = jsOrString (UserConfig.mk none none none).format CONFIG_outputFormat ∧
    fitInfo.size ≤ jsOrNat (UserConfig.mk none none none).maxSizeKB CONFIG_maxSizeKB * 1024 ∧
    ImageProcessor.process constEnc (.error "never loaded") fitInfo
      (UserConfig.mk none none none) = .ok
      { originalFile := fitInfo.file
        processedBlob := some (.file fitInfo.file)
        finalWidth := some fitInfo.width
        finalHeight := some fitInfo.height
        finalSize := some fitInfo.size
        wasProcessed := false
        outputFileName := some fitInfo.file.name
        error := none } :=
  ⟨rfl, rfl, by decide,
    process_skip_fast_path constEnc (.error "never loaded") fitInfo
      (UserConfig.mk none none none) rfl rfl (by decide)⟩

/-! ## Loop lemmas for `ImageProcessor.compressLoop` -/

/-- If the encode at the current `minQuality` fits the budget, so does the
encode at the loop's final `minQuality` (the lower bound only ever moves to a
quality whose encode was observed to fit). -/
theorem compressLoop_min_fits (enc : Enc) (canvas : Canvas) (format : String)
    (maxSizeBytes : Nat) :
    ∀ (n : Nat) (minQ maxQ : ℚ) (best : Option Blob),
      (enc canvas format (some minQ)).size ≤ maxSizeBytes →
      (enc canvas format (some
          (ImageProcessor.compressLoop enc canvas format maxSizeBytes n
            (minQ, maxQ, best)).1)).size ≤ maxSizeBytes := by
  intro n
  induction n with
  | zero =>
      intro minQ maxQ best h
      simpa [ImageProcessor.compressLoop] using h
  | succ n ih =>
      intro minQ maxQ best h
      by_cases hc : (enc canvas format (some ((minQ + maxQ) / 2))).size ≤ maxSizeBytes
      · simpa [ImageProcessor.compressLoop, hc] using ih _ _ _ hc
      · simpa [ImageProcessor.compressLoop, hc] using ih _ _ _ h

/-- The loop's final `bestBlob` is either the initial one, untouched, or a
blob that was observed to fit the budget. -/
theorem compressLoop_best_cases (enc : Enc) (canvas : Canvas) (format : String)
    (maxSizeBytes : Nat) :
    ∀ (n : Nat) (minQ maxQ : ℚ) (best : Option Blob),
      (ImageProcessor.compressLoop enc canvas format maxSizeBytes n
          (minQ, maxQ, best)).2.2 = best ∨
      ∃ b, (ImageProcessor.compressLoop enc canvas format maxSizeBytes n
          (minQ, maxQ, best)).2.2 = some b ∧ b.size ≤ maxSizeBytes := by
  intro n
  induction n with
  | zero =>
      intro minQ maxQ best
      simp [ImageProcessor.compressLoop]
  | succ n ih =>
      intro minQ maxQ best
      by_cases hc : (enc canvas format (some ((minQ + maxQ) / 2))).size ≤ maxSizeBytes
      · rcases ih ((minQ + maxQ) / 2) maxQ (some (enc canvas format (some ((minQ + maxQ) / 2))))
          with h | ⟨b, hb, hbs⟩
        · right
          refine ⟨enc canvas format (some ((minQ + maxQ) / 2)), ?_, hc⟩
          simpa [ImageProcessor.compressLoop, hc] using h
        · right
          refine ⟨b, ?_, hbs⟩
          simpa [ImageProcessor.compressLoop, hc] using hb
      · rcases ih minQ ((minQ + maxQ) / 2) best with h | ⟨b, hb, hbs⟩
        · left
          simpa [ImageProcessor.compressLoop, hc] using h
        · right
          refine ⟨b, ?_, hbs⟩
          simpa [ImageProcessor.compressLoop, hc] using hb

/-- When every quality at or above `1/10` encodes above the budget, the loop
never moves `minQuality` and never updates `bestBlob`. -/
theorem compressLoop_all_large (enc : Enc) (canvas : Canvas) (format : String)
    (maxSizeBytes : Nat)
    (hbig : ∀ q : ℚ, 1 / 10 ≤ q → maxSizeBytes < (enc canvas format (some q)).size) :
    ∀ (n : Nat) (minQ maxQ : ℚ) (best : Option Blob),
      1 / 10 ≤ minQ → minQ ≤ maxQ →
      (ImageProcessor.compressLoop enc canvas format maxSizeBytes n
          (minQ, maxQ, best)).1 = minQ ∧
      (ImageProcessor.compressLoop enc canvas format maxSizeBytes n
          (minQ, maxQ, best)).2.2 = best := by
  intro n
  induction n with
  | zero =>
      intro minQ maxQ best _ _
      simp [ImageProcessor.compressLoop]
  | succ n ih =>
      intro minQ maxQ best hlo hle
      have hmid_lo : 1 / 10 ≤ (minQ + maxQ) / 2 := by linarith
      have hmid_ge : minQ ≤ (minQ + maxQ) / 2 := by linarith
      have hc : ¬ (enc canvas format (some ((minQ + maxQ) / 2))).size ≤ maxSizeBytes :=
        Nat.not_le.mpr (hbig _ hmid_lo)
      have := ih minQ ((minQ + maxQ) / 2) best hlo hmid_ge
      constructor
      · simpa [ImageProcessor.compressLoop, hc] using this.1
      · simpa [ImageProcessor.compressLoop, hc] using this.2

/-! ## C1 — compress budget guarantee / best-effort floor -/

/-- C1: assuming the encoder's output size is monotone non-decreasing in the
quality argument, for any lossy format: if an encode at the floor quality
`0.1` fits `maxSizeKB * 1024`, `compress` returns a blob within the budget;
otherwise `compress` returns the result of one final encode at the floor
quality unconditionally — it never fails on budget-exceeded. -/
theorem compress_budget_best_effort (enc : Enc) (canvas : Canvas) (maxSizeKB : Nat)
    (format : String) (hfmt : format ≠ "image/png")
    (hmono : ∀ q₁ q₂ : ℚ, q₁ ≤ q₂ →
      (enc canvas format (some q₁)).size ≤ (enc canvas format (some q₂)).size) :
    ((enc canvas format (some (1 / 10))).size ≤ maxSizeKB * 1024 →
      (ImageProcessor.compress enc canvas maxSizeKB format).size ≤ maxSizeKB * 1024) ∧
    (maxSizeKB * 1024 < (enc canvas format (some (1 / 10))).size →
      ImageProcessor.compress enc canvas maxSizeKB format =
        enc canvas format (some (1 / 10))) := by
  constructor
  · intro hfit
    unfold ImageProcessor.compress
    rw [if_neg hfmt]
    by_cases hfirst : (enc canvas format (some 1)).size ≤ maxSizeKB * 1024
    · simp [hfirst]
    · rcases compressLoop_best_cases enc canvas format (maxSizeKB * 1024) 10 (1 / 10) 1
          (some (enc canvas format (some 1))) with hsame | ⟨b, hb, hbs⟩
      · have hmin := compressLoop_min_fits enc canvas format (maxSizeKB * 1024) 10
          (1 / 10) 1 (some (enc canvas format (some 1))) hfit
        simp only [hfirst, if_false, hsame]
        split_ifs with hover
        · exact hmin
        · exact Nat.not_lt.mp hover
      · simp only [hfirst, if_false, hb]
        split_ifs with hover
        · exact absurd hbs (Nat.not_le.mpr hover)
        · exact hbs
  · intro hexceed
    have hbig : ∀ q : ℚ, 1 / 10 ≤ q →
        maxSizeKB * 1024 < (enc canvas format (some q)).size := by
      intro q hq
      exact Nat.lt_of_lt_of_le hexceed (hmono _ _ hq)
    have hfirst : ¬ (enc canvas format (some 1)).size ≤ maxSizeKB * 1024 :=
      Nat.not_le.mpr (hbig 1 (by norm_num))
    have hloop := compressLoop_all_large enc canvas format (maxSizeKB * 1024) hbig 10
      (1 / 10) 1 (some (enc canvas format (some 1))) le_rfl (by norm_num)
    unfold ImageProcessor.compress
    rw [if_neg hfmt]
    simp only [hfirst, if_false, hloop.2, hloop.1]
    rw [if_pos (hbig 1 (by norm_num))]

/-- Witness for C1 with the constant (hence monotone) encoder `constEnc`,
budget 1 KB: the floor encode (100 bytes) fits, so the result fits. -/
theorem compress_budget_best_effort_witness :
    ("image/jpeg" : String) ≠ "image/png" ∧
    (∀ q₁ q₂ : ℚ, q₁ ≤ q₂ →
      (constEnc ⟨1, 1⟩ "image/jpeg" (some q₁)).size ≤
        (constEnc ⟨1, 1⟩ "image/jpeg" (some q₂)).size) ∧
    (((constEnc ⟨1, 1⟩ "image/jpeg" (some (1 / 10))).size ≤ 1 * 1024 →
      (ImageProcessor.compress constEnc ⟨1, 1⟩ 1 "image/jpeg").size ≤ 1 * 1024) ∧
    (1 * 1024 < (constEnc ⟨1, 1⟩ "image/jpeg" (some (1 / 10))).size →
      ImageProcessor.compress constEnc ⟨1, 1⟩ 1 "image/jpeg" =
        constEnc ⟨1, 1⟩ "image/jpeg" (some (1 / 10)))) :=
  ⟨by decide, fun _ _ _ => le_refl _,
    compress_budget_best_effort constEnc ⟨1, 1⟩ 1 "image/jpeg" (by decide)
      (fun _ _ _ => le_refl _)⟩

/-! ## C2 — first-encode shortcut and 10-round binary search -/

/-- The source loop and the spec's search agree round by round: starting from
the same quality bounds, and best slots that are either equal or both
non-fitting, they end with equal bounds and best slots that are either equal
or both non-fitting. -/
theorem compressLoop_specSearch_agree (enc : Enc) (canvas : Canvas) (format : String)
    (maxSizeBytes : Nat) :
    ∀ (n : Nat) (minQ maxQ : ℚ) (b₁ b₂ : Option Blob),
      (b₁ = b₂ ∨ (¬ OptFits maxSizeBytes b₁ ∧ ¬ OptFits maxSizeBytes b₂)) →
      (ImageProcessor.compressLoop enc canvas format maxSizeBytes n (minQ, maxQ, b₁)).1 =
        (specSearch enc canvas format maxSizeBytes n ⟨minQ, maxQ, b₂⟩).minQuality ∧
      ((ImageProcessor.compressLoop enc canvas format maxSizeBytes n (minQ, maxQ, b₁)).2.2 =
          (specSearch enc canvas format maxSizeBytes n ⟨minQ, maxQ, b₂⟩).bestBlob ∨
        (¬ OptFits maxSizeBytes
            (ImageProcessor.compressLoop enc canvas format maxSizeBytes n (minQ, maxQ, b₁)).2.2 ∧
         ¬ OptFits maxSizeBytes
            (specSearch enc canvas format maxSizeBytes n ⟨minQ, maxQ, b₂⟩).bestBlob)) := by
  intro n
  induction n with
  | zero =>
      intro minQ maxQ b₁ b₂ hrel
      rcases hrel with h | h
      · simp [ImageProcessor.compressLoop, specSearch, h]
      · exact ⟨rfl, Or.inr h⟩
  | succ n ih =>
      intro minQ maxQ b₁ b₂ hrel
      by_cases hc : (enc canvas format (some ((minQ + maxQ) / 2))).size ≤ maxSizeBytes
      · have hstep := ih ((minQ + maxQ) / 2) maxQ
          (some (enc canvas format (some ((minQ + maxQ) / 2))))
          (some (enc canvas format (some ((minQ + maxQ) / 2)))) (Or.inl rfl)
        constructor
        · simpa [ImageProcessor.compressLoop, specSearch, specRound, hc] using hstep.1
        · simpa [ImageProcessor.compressLoop, specSearch, specRound, hc] using hstep.2
      · have hstep := ih minQ ((minQ + maxQ) / 2) b₁ b₂ hrel
        constructor
        · simpa [ImageProcessor.compressLoop, specSearch, specRound, hc] using hstep.1
        · simpa [ImageProcessor.compressLoop, specSearch, specRound, hc] using hstep.2

/-- C2: for a lossy format, `compress` first encodes at quality 1.0 and
returns that blob unchanged when it already fits the budget; otherwise it
behaves exactly as the spec's 10-round binary search over quality in
`[0.1, 1.0]` (refinement against `compressSpec`, which is written from the
spec's words). -/
theorem compress_refines_spec_search (enc : Enc) (canvas : Canvas) (maxSizeKB : Nat)
    (format : String) (hfmt : format ≠ "image/png") :
    ((enc canvas format (some 1)).size ≤ maxSizeKB * 1024 →
      ImageProcessor.compress enc canvas maxSizeKB format = enc canvas format (some 1)) ∧
    ImageProcessor.compress enc canvas maxSizeKB format =
      compressSpec enc canvas maxSizeKB format := by
  constructor
  · intro hfit
    unfold ImageProcessor.compress
    rw [if_neg hfmt]
    simp [hfit]
  · unfold ImageProcessor.compress compressSpec
    rw [if_neg hfmt, if_neg hfmt]
    by_cases hfirst : (enc canvas format (some 1)).size ≤ maxSizeKB * 1024
    · simp [hfirst]
    · have hrel : (some (enc canvas format (some 1)) : Option Blob) = none ∨
          (¬ OptFits (maxSizeKB * 1024) (some (enc canvas format (some 1))) ∧
           ¬ OptFits (maxSizeKB * 1024) (none : Option Blob)) := by
        right
        exact ⟨hfirst, fun h => h⟩
      have hagree := compressLoop_specSearch_agree enc canvas format (maxSizeKB * 1024) 10
        (1 / 10) 1 (some (enc canvas format (some 1))) none hrel
      simp only [hfirst, if_false]
      rcases hagree with ⟨hmin, hbest | ⟨hnf₁, hnf₂⟩⟩
      · rw [hmin, hbest]
        cases hb : (specSearch enc canvas format (maxSizeKB * 1024) 10
            ⟨1 / 10, 1, none⟩).bestBlob with
        | none => rfl
        | some b =>
            by_cases hfits : b.size ≤ maxSizeKB * 1024
            · simp [hfits, Nat.not_lt.mpr hfits]
            · simp [hfits, Nat.not_le.mp hfits]
      · rw [hmin]
        cases hb₁ : (ImageProcessor.compressLoop enc canvas format (maxSizeKB * 1024) 10
            (1 / 10, 1, some (enc canvas format (some 1)))).2.2 with
        | none =>
            cases hb₂ : (specSearch enc canvas format (maxSizeKB * 1024) 10
                ⟨1 / 10, 1, none⟩).bestBlob with
            | none => rfl
            | some b₂ =>
                rw [hb₂] at hnf₂
                simp only [OptFits] at hnf₂
                simp [hnf₂]
        | some b₁ =>
            rw [hb₁] at hnf₁
            simp only [OptFits] at hnf₁
            cases hb₂ : (specSearch enc canvas format (maxSizeKB * 1024) 10
                ⟨1 / 10, 1, none⟩).bestBlob with
            | none =>
                simp [Nat.not_le.mp hnf₁]
            | some b₂ =>
                rw [hb₂] at hnf₂
                simp only [OptFits] at hnf₂
                simp [Nat.not_le.mp hnf₁, hnf₂]

/-- Witness for C2: with the constant encoder and a 1 KB budget the first
encode fits and is returned unchanged, and the refinement equation holds. -/
theorem compress_refines_spec_search_witness :
    ("image/jpeg" : String) ≠ "image/png" ∧
    (((constEnc ⟨1, 1⟩ "image/jpeg" (some 1)).size ≤ 1 * 1024 →
      ImageProcessor.compress constEnc ⟨1, 1⟩ 1 "image/jpeg" =
        constEnc ⟨1, 1⟩ "image/jpeg" (some 1)) ∧
    ImageProcessor.compress constEnc ⟨1, 1⟩ 1 "image/jpeg" =
      compressSpec constEnc ⟨1, 1⟩ 1 "image/jpeg") :=
  ⟨by decide, compress_refines_spec_search constEnc ⟨1, 1⟩ 1 "image/jpeg" (by decide)⟩

/-! ## Batch loop lemmas -/

/-- The final results array is the initial accumulator followed by one
`itemOutcome` per remaining image, in input order. -/
theorem processAllGo_results (procItem : ImageInfo → Except String ProcResult) (total : Nat) :
    ∀ (images : List ImageInfo) (i : Nat) (results : List ProcResult),
      (BatchProcessor.processAllGo procItem total images i results).1 =
        results ++ images.map (itemOutcome procItem) := by
  intro images
  induction images with
  | nil =>
      intro i results
      simp [BatchProcessor.processAllGo]
  | cons info rest ih =>
      intro i results
      simp [BatchProcessor.processAllGo, ih]

/-- Each remaining item contributes exactly two progress emissions. -/
theorem processAllGo_emissions_length (procItem : ImageInfo → Except String ProcResult)
    (total : Nat) :
    ∀ (images : List ImageInfo) (i : Nat) (results : List ProcResult),
      (BatchProcessor.processAllGo procItem total images i results).2.length =
        2 * images.length := by
  intro images
  induction images with
  | nil =>
      intro i results
      simp [BatchProcessor.processAllGo]
  | cons info rest ih =>
      intro i results
      simp [BatchProcessor.processAllGo, ih]
      ring

/-- The `completed` fields of the emissions form `completedSeq`. -/
theorem processAllGo_completed_map (procItem : ImageInfo → Except String ProcResult)
    (total : Nat) :
    ∀ (images : List ImageInfo) (i : Nat) (results : List ProcResult),
      (BatchProcessor.processAllGo procItem total images i results).2.map
          Progress.completed = completedSeq images.length i := by
  intro images
  induction images with
  | nil =>
      intro i results
      simp [BatchProcessor.processAllGo, completedSeq]
  | cons info rest ih =>
      intro i results
      simp [BatchProcessor.processAllGo, completedSeq, ih]

/-- Every emission carries the fixed `total`. -/
theorem processAllGo_total_const (procItem : ImageInfo → Except String ProcResult)
    (total : Nat) :
    ∀ (images : List ImageInfo) (i : Nat) (results : List ProcResult) (p : Progress),
      p ∈ (BatchProcessor.processAllGo procItem total images i results).2 →
      p.total = total := by
  intro images
  induction images with
  | nil =>
      intro i results p hp
      simp [BatchProcessor.processAllGo] at hp
  | cons info rest ih =>
      intro i results p hp
      simp only [BatchProcessor.processAllGo, List.mem_cons] at hp
      rcases hp with h | h | h
      · rw [h]
      · rw [h]
      · exact ih _ _ p h

/-- `completedSeq` is monotonically non-decreasing. -/
theorem completedSeq_chain : ∀ (n i : Nat), List.Chain' (· ≤ ·) (completedSeq n i) := by
  intro n
  induction n with
  | zero =>
      intro i
      simp [completedSeq]
  | succ n ih =>
      intro i
      rw [completedSeq, List.chain'_cons]
      refine ⟨Nat.le_succ i, ?_⟩
      cases n with
      | zero => simp [completedSeq]
      | succ m =>
          rw [completedSeq, List.chain'_cons]
          exact ⟨le_rfl, by rw [← completedSeq]; exact ih (i + 1)⟩

/-- The last entry of a non-empty `completedSeq n i` is `i + n`. -/
theorem completedSeq_getLast? : ∀ (n i : Nat), n ≠ 0 →
    (completedSeq n i).getLast? = some (i + n) := by
  intro n
  induction n with
  | zero => intro i h; exact absurd rfl h
  | succ n ih =>
      intro i _
      cases n with
      | zero => simp [completedSeq]
      | succ m =>
          rw [completedSeq, List.getLast?_cons_cons, completedSeq, List.getLast?_cons_cons,
            ← completedSeq, ih (i + 1) (Nat.succ_ne_zero m)]
          congr 1
          omega

/-! ## C3 — batch progress and ordering contract -/

/-- C3: for every batch of `N` items, `processAll` emits progress exactly
`2 * N` times; the `completed` values are monotonically non-decreasing; the
final emission has `completed = total = N`; and the result array has length
`N` with result `k` corresponding to input item `k`. -/
theorem processAll_progress_contract (enc : Enc) (load : ImageInfo → Except String Img)
    (userConfig : UserConfig) (images : List ImageInfo) :
    (BatchProcessor.processAll enc load images userConfig).2.length = 2 * images.length ∧
    List.Chain' (· ≤ ·)
      ((BatchProcessor.processAll enc load images userConfig).2.map Progress.completed) ∧
    (∀ p : Progress,
      (BatchProcessor.processAll enc load images userConfig).2.getLast? = some p →
      p.completed = images.length ∧ p.total = images.length) ∧
    (BatchProcessor.processAll enc load images userConfig).1.length = images.length ∧
    (∀ k : Nat, (BatchProcessor.processAll enc load images userConfig).1[k]? =
      (images[k]?).map (itemOutcome
        (fun info => ImageProcessor.process enc (load info) info userConfig))) := by
  unfold BatchProcessor.processAll BatchProcessor.processAllWith
  refine ⟨processAllGo_emissions_length _ _ images 0 [], ?_, ?_, ?_, ?_⟩
  · rw [processAllGo_completed_map]
    exact completedSeq_chain images.length 0
  · intro p hp
    have hne : images ≠ [] := by
      intro hemp
      rw [hemp] at hp
      simp [BatchProcessor.processAllGo] at hp
    have hlen : images.length ≠ 0 := fun h => hne (List.length_eq_zero.mp h)
    constructor
    · have hmap := processAllGo_completed_map
        (fun info => ImageProcessor.process enc (load info) info userConfig)
        images.length images 0 []
      have : (completedSeq images.length 0).getLast? = some p.completed := by
        rw [← hmap, List.getLast?_map, hp]
        rfl
      rw [completedSeq_getLast? images.length 0 hlen] at this
      have := Option.some.inj this
      omega
    · exact processAllGo_total_const _ _ images 0 [] p (List.mem_of_mem_getLast? hp)
  · rw [processAllGo_results]
    simp
  · intro k
    rw [processAllGo_results]
    simp [List.getElem?_map]

/-- Witness for C3 on a concrete two-item batch (one decodable, one not),
exercising the inner final-emission implication. -/
theorem processAll_progress_contract_witness :
    ((BatchProcessor.processAll constEnc (fun _ => .error "decode failed")
        [bigInfo, fitInfo] (UserConfig.mk none none none)).2.length = 2 * 2 ∧
    List.Chain' (· ≤ ·)
      ((BatchProcessor.processAll constEnc (fun _ => .error "decode failed")
        [bigInfo, fitInfo] (UserConfig.mk none none none)).2.map Progress.completed) ∧
    (∀ p : Progress,
      (BatchProcessor.processAll constEnc (fun _ => .error "decode failed")
        [bigInfo, fitInfo] (UserConfig.mk none none none)).2.getLast? = some p →
      p.completed = 2 ∧ p.total = 2) ∧
    (BatchProcessor.processAll constEnc (fun _ => .error "decode failed")
        [bigInfo, fitInfo] (UserConfig.mk none none none)).1.length = 2 ∧
    (∀ k : Nat, (BatchProcessor.processAll constEnc (fun _ => .error "decode failed")
        [bigInfo, fitInfo] (UserConfig.mk none none none)).1[k]? =
      (([bigInfo, fitInfo] : List ImageInfo)[k]?).map (itemOutcome
        (fun info => ImageProcessor.process constEnc ((fun _ => .error "decode failed") info)
          info (UserConfig.mk none none none))))) :=
  processAll_progress_contract constEnc (fun _ => .error "decode failed")
    (UserConfig.mk none none none) [bigInfo, fitInfo]

/-! ## C4 — per-item error isolation -/

/-- C4: if processing item `k` fails with any error, `processAll` records for
item `k` a failure sentinel (`processedBlob = none`, populated `error`,
`wasProcessed = false`) and still processes every other item — the result
array keeps length `N` and every entry is the corresponding item's outcome;
no per-item error escapes (`processAll` totally returns a plain list). -/
theorem processAll_error_isolation (enc : Enc) (load : ImageInfo → Except String Img)
    (userConfig : UserConfig) (images : List ImageInfo) (k : Nat) (e : String)
    (hk : k < images.length)
    (herr : ImageProcessor.process enc (load images[k]) images[k] userConfig = .error e) :
    (BatchProcessor.processAll enc load images userConfig).1.length = images.length ∧
    (BatchProcessor.processAll enc load images userConfig).1[k]? = some
      { originalFile := images[k].file
        processedBlob := none
        finalWidth := none
        finalHeight := none
        finalSize := none
        wasProcessed := false
        outputFileName := none
        error := some e } ∧
    (∀ j : Nat, (BatchProcessor.processAll enc load images userConfig).1[j]? =
      (images[j]?).map (itemOutcome
        (fun info => ImageProcessor.process enc (load info) info userConfig))) := by
  unfold BatchProcessor.processAll BatchProcessor.processAllWith
  refine ⟨?_, ?_, ?_⟩
  · rw [processAllGo_results]
    simp
  · rw [processAllGo_results]
    simp only [List.nil_append, List.getElem?_map]
    rw [List.getElem?_eq_getElem hk]
    simp only [Option.map_some']
    rw [itemOutcome, herr]
    rfl
  · intro j
    rw [processAllGo_results]
    simp [List.getElem?_map]

/-- Witness for C4: a single-item batch whose image-element load fails. -/
theorem processAll_error_isolation_witness :
    0 < ([bigInfo] : List ImageInfo).length ∧
    ImageProcessor.process constEnc ((fun _ => .error "decode failed") bigInfo) bigInfo
      (UserConfig.mk none none none) = .error "decode failed" ∧
    ((BatchProcessor.processAll constEnc (fun _ => .error "decode failed") [bigInfo]
        (UserConfig.mk none none none)).1.length = ([bigInfo] : List ImageInfo).length ∧
    (BatchProcessor.processAll constEnc (fun _ => .error "decode failed") [bigInfo]
        (UserConfig.mk none none none)).1[0]? = some
      { originalFile := bigInfo.file
        processedBlob := none
        finalWidth := none
        finalHeight := none
        finalSize := none
        wasProcessed := false
        outputFileName := none
        error := some "decode failed" } ∧
    (∀ j : Nat, (BatchProcessor.processAll constEnc (fun _ => .error "decode failed") [bigInfo]
        (UserConfig.mk none none none)).1[j]? =
      (([bigInfo] : List ImageInfo)[j]?).map (itemOutcome
        (fun info => ImageProcessor.process constEnc
          ((fun _ => .error "decode failed") info) info (UserConfig.mk none none none))))) :=
  ⟨by decide, rfl,
    processAll_error_isolation constEnc (fun _ => .error "decode failed")
      (UserConfig.mk none none none) [bigInfo] 0 "decode failed" (by decide) rfl⟩

/-! ## C9 — archive exporter contract -/

/-- The entry loop is an order-preserving conditional map over the results. -/
theorem zipAddFiles_eq_filterMap (results : List ProcResult) :
    ZipExporter.zipAddFiles results =
      results.filterMap (fun r => r.processedBlob.map (fun b => (zipEntryName r, b))) := by
  induction results with
  | nil => rfl
  | cons r rest ih =>
      cases hb : r.processedBlob with
      | none => simp [ZipExporter.zipAddFiles, hb, ih]
      | some b => simp [ZipExporter.zipAddFiles, hb, ih]

/-- C9: the archive contains exactly one entry per result with non-null
`processedBlob`, named by `outputFileName` (falling back to the original file
name when absent), grouped under its folder label; null-blob results are
silently omitted and every archive entry traces back to some non-null result. -/
theorem createZip_archive_contract (results : List ProcResult) (folderName : String)
    (resultsByFolder : List (String × List ProcResult)) :
    (ZipExporter.createZip results folderName).name = folderName ∧
    (ZipExporter.createZip results folderName).files =
      results.filterMap (fun r => r.processedBlob.map (fun b => (zipEntryName r, b))) ∧
    (∀ entry : String × JsBlob, entry ∈ (ZipExporter.createZip results folderName).files →
      ∃ r ∈ results, r.processedBlob = some entry.2 ∧ entry.1 = zipEntryName r) ∧
    (∀ r : ProcResult, r.outputFileName = none → zipEntryName r = r.originalFile.name) ∧
    ZipExporter.createZipWithFolders resultsByFolder =
      resultsByFolder.map (fun p => ZipExporter.createZip p.2 p.1) := by
  refine ⟨rfl, zipAddFiles_eq_filterMap results, ?_, ?_, rfl⟩
  · intro entry hentry
    rw [ZipExporter.createZip] at hentry
    rw [zipAddFiles_eq_filterMap results] at hentry
    rcases List.mem_filterMap.mp hentry with ⟨r, hr, hf⟩
    rcases Option.map_eq_some'.mp hf with ⟨b, hb, hpair⟩
    exact ⟨r, hr, by rw [hb, ← hpair], by rw [← hpair]⟩
  · intro r hnone
    rw [zipEntryName, hnone]
    rfl

/-- Witness for C9 on a concrete two-result collection (one non-null, one
null): exercises the membership implication and the name fallback. -/
theorem createZip_archive_contract_witness :
    ((ZipExporter.createZip [okResult, nullResult] "batch").name = "batch" ∧
    (ZipExporter.createZip [okResult, nullResult] "batch").files =
      ([okResult, nullResult] : List ProcResult).filterMap
        (fun r => r.processedBlob.map (fun b => (zipEntryName r, b))) ∧
    (∀ entry : String × JsBlob,
      entry ∈ (ZipExporter.createZip [okResult, nullResult] "batch").files →
      ∃ r ∈ ([okResult, nullResult] : List ProcResult),
        r.processedBlob = some entry.2 ∧ entry.1 = zipEntryName r) ∧
    (∀ r : ProcResult, r.outputFileName = none → zipEntryName r = r.originalFile.name) ∧
    ZipExporter.createZipWithFolders [("batch", [okResult, nullResult])] =
      ([("batch", [okResult, nullResult])] : List (String × List ProcResult)).map
        (fun p => ZipExporter.createZip p.2 p.1)) :=
  createZip_archive_contract [okResult, nullResult] "batch" [("batch", [okResult, nullResult])]

/-! ## String lemmas for the output-file-name derivation -/

/-- `jsLastIndexOfAux` finds nothing exactly when the character is absent. -/
theorem jsLastIndexOfAux_none_iff (target : Char) :
    ∀ l : List Char, jsLastIndexOfAux target l = none ↔ l.contains target = false := by
  intro l
  induction l with
  | nil => simp [jsLastIndexOfAux]
  | cons c rest ih =>
      rw [jsLastIndexOfAux]
      cases h : jsLastIndexOfAux target rest with
      | some j =>
          have hcontains : rest.contains target = true := by
            by_contra hfalse
            rw [(ih.mpr (Bool.eq_false_iff.mpr hfalse) : _ = _)] at h
            cases h
          simp [hcontains]
          intro _
          exact List.mem_of_elem_eq_true hcontains
      | none =>
          have hcontains : rest.contains target = false := ih.mp h
          by_cases hc : c = target
          · simp [hc]
          · simp [hc, hcontains, Ne.symm hc]
            intro hmem
            have h2 : rest.contains target = true := List.elem_eq_true_of_mem hmem
            rw [hcontains] at h2
            cases h2

/-- Taking up to the last-dot index yields exactly the spec-side
"everything before the last dot". -/
theorem take_lastIndex_eq_beforeLastDot :
    ∀ (l : List Char) (j : Nat), jsLastIndexOfAux '.' l = some j →
      l.take j = beforeLastDotL l := by
  intro l
  induction l with
  | nil =>
      intro j h
      cases h
  | cons c rest ih =>
      intro j h
      rw [jsLastIndexOfAux] at h
      cases haux : jsLastIndexOfAux '.' rest with
      | some j' =>
          rw [haux] at h
          have hj : j = j' + 1 := (Option.some.inj h).symm
          have hcontains : rest.contains '.' = true := by
            by_contra hfalse
            rw [((jsLastIndexOfAux_none_iff '.' rest).mpr
              (Bool.eq_false_iff.mpr hfalse) : _ = _)] at haux
            cases haux
          rw [hj, beforeLastDotL, if_pos hcontains, List.take_succ_cons, ih j' haux]
      | none =>
          rw [haux] at h
          have hcontains : rest.contains '.' = false := (jsLastIndexOfAux_none_iff '.' rest).mp haux
          by_cases hc : c = '.'
          · rw [if_pos hc] at h
            have hj : j = 0 := (Option.some.inj h).symm
            rw [hj, beforeLastDotL, if_neg (by rw [hcontains]; exact Bool.false_ne_true)]
            rfl
          · rw [if_neg hc] at h
            cases h

/-- The source's base-name computation
(`substring(0, lastIndexOf('.')) || originalName`) agrees with the spec-side
case analysis on `hasDot` and `beforeLastDot`. -/
theorem jsBaseName_eq_spec (name : String) :
    (if jsSubstringTo name (jsLastIndexOf name '.') = "" then name
     else jsSubstringTo name (jsLastIndexOf name '.')) =
    (if hasDot name = true ∧ beforeLastDot name ≠ "" then beforeLastDot name else name) := by
  cases haux : jsLastIndexOfAux '.' name.data with
  | none =>
      have hdot : hasDot name = false := by
        rw [hasDot]
        exact (jsLastIndexOfAux_none_iff '.' name.data).mp haux
      have htrim : jsSubstringTo name (jsLastIndexOf name '.') = "" := by
        rw [jsSubstringTo, jsLastIndexOf, haux]
        rfl
      rw [htrim]
      simp [hdot]
  | some j =>
      have hdot : hasDot name = true := by
        rw [hasDot]
        by_contra hfalse
        rw [((jsLastIndexOfAux_none_iff '.' name.data).mpr
          (Bool.eq_false_iff.mpr hfalse) : _ = _)] at haux
        cases haux
      have htrim : jsSubstringTo name (jsLastIndexOf name '.') = beforeLastDot name := by
        rw [jsSubstringTo, jsLastIndexOf, haux, beforeLastDot]
        congr 1
        have := take_lastIndex_eq_beforeLastDot name.data j haux
        simpa using this
      rw [htrim]
      by_cases hb : beforeLastDot name = ""
      · rw [if_pos hb]
        simp [hb, hdot]
      · rw [if_neg hb]
        simp [hb, hdot]

/-! ## C10 — output file-name derivation -/

/-- C10 (amended): for every transformed image, the output file name is the
base name plus the effective extension, where the base name is the original
name when it has no `'.'` (dotless names are never truncated), everything
before the last `'.'` when that part is non-empty, and — diverging from the
original claim — again the whole original name when the part before the last
`'.'` is empty (e.g. `".png"`). -/
theorem process_output_name (enc : Enc) (img : Img) (imageInfo : ImageInfo)
    (userConfig : UserConfig) (hneeds : imageInfo.needsProcessing = true) :
    ∃ r : ProcResult,
      ImageProcessor.process enc (.ok img) imageInfo userConfig = .ok r ∧
      r.outputFileName = some
        ((if hasDot imageInfo.file.name = true ∧ beforeLastDot imageInfo.file.name ≠ ""
          then beforeLastDot imageInfo.file.name
          else imageInfo.file.name) ++
          jsOrString userConfig.extension CONFIG_outputExtension) ∧
      (hasDot imageInfo.file.name = false →
        r.outputFileName = some (imageInfo.file.name ++
          jsOrString userConfig.extension CONFIG_outputExtension)) := by
  unfold ImageProcessor.process
  rw [hneeds]
  simp only [Bool.not_true, Bool.false_and, Bool.false_eq_true, if_false]
  refine ⟨_, rfl, ?_, ?_⟩
  · simp only
    rw [jsBaseName_eq_spec]
  · intro h
    simp only
    rw [jsBaseName_eq_spec]
    simp [h]

/-- Counterexample to C10 as frozen: the name `".png"` does contain a `'.'`,
and everything before its last `'.'` is the empty string, so the claim
predicts output `".jpg"`; the code instead falls back to the whole original
name and produces `".png.jpg"`. -/
theorem process_output_name_counterexample :
    hasDot ".png" = true ∧
    beforeLastDot ".png" = "" ∧
    (∃ r : ProcResult,
      ImageProcessor.process constEnc (.ok ⟨1500, 1000⟩) dotInfo
        (UserConfig.mk none none none) = .ok r ∧
      r.outputFileName = some ".png.jpg") ∧
    (".png.jpg" : String) ≠ "" ++ ".jpg" :=
  ⟨rfl, rfl, ⟨_, rfl, rfl⟩, by decide⟩

/-- Witness for the amended C10 theorem at a concrete transformed image. -/
theorem process_output_name_witness :
    bigInfo.needsProcessing = true ∧
    (∃ r : ProcResult,
      ImageProcessor.process constEnc (.ok ⟨1500, 1000⟩) bigInfo
        (UserConfig.mk none none none) = .ok r ∧
      r.outputFileName = some
        ((if hasDot bigInfo.file.name = true ∧ beforeLastDot bigInfo.file.name ≠ ""
          then beforeLastDot bigInfo.file.name
          else bigInfo.file.name) ++
          jsOrString (UserConfig.mk none none none).extension CONFIG_outputExtension) ∧
      (hasDot bigInfo.file.name = false →
        r.outputFileName = some (bigInfo.file.name ++
          jsOrString (UserConfig.mk none none none).extension CONFIG_outputExtension))) :=
  ⟨rfl, process_output_name constEnc ⟨1500, 1000⟩ bigInfo (UserConfig.mk none none none) rfl⟩
